import Mathlib

/-!
Verification of the Liquidity Matrix bot's pattern-detection and trade-plan
engine (`bot.py`).  The engine's pure core is embedded shallowly: prices are
rationals, Python's `round(x, n)` is rounding of `x * 10^n` to the nearest
integer, fallible code returns `Except`, and the network/scheduling glue is
out of scope (the orchestrator is embedded from the point where both candle
series have been fetched and parsed).
-/

/-- One OHLCV candle, as produced by `parse_candles` (bot.py lines 73-84). -/
structure Candle where
  datetime : ℤ
  open_ : ℚ
  high : ℚ
  low : ℚ
  close : ℚ
  volume : ℚ
deriving DecidableEq, Repr

def defaultCandle : Candle := ⟨0, 0, 0, 0, 0, 0⟩

/-- The OHLC well-formedness invariant of the data model:
`low ≤ min(open, close) ≤ max(open, close) ≤ high`. -/
def CandleInv (c : Candle) : Prop :=
  c.low ≤ min c.open_ c.close ∧ max c.open_ c.close ≤ c.high

instance (c : Candle) : Decidable (CandleInv c) := by
  unfold CandleInv; exact inferInstance

/-- Python slice `l[-n:]`: the last `n` elements of `l`. -/
def lastN (n : Nat) (l : List α) : List α := l.drop (l.length - n)

/-- Config constant `XAU_SL_PIPS = 20` (bot.py line 31). -/
def XAU_SL_PIPS : ℚ := 20

/-- Config constant `BTC_SL_USD = 350` (bot.py line 32). -/
def BTC_SL_USD : ℚ := 350

/-- Config constant `RR = 4` (bot.py line 33). -/
def RR : ℚ := 4

/-- Python `round(x, 3)`: round to the nearest thousandth. -/
def round3 (x : ℚ) : ℚ := (round (x * 1000) : ℤ) / 1000

/-- Python `round(x, 2)`: round to the nearest hundredth. -/
def round2 (x : ℚ) : ℚ := (round (x * 100) : ℤ) / 100

/-- Result of `detect_sweep_and_red`: the Python dict with `"signal": True`
carrying the sweep and confirmation candles and `sweep_index_from_end`, or
`"signal": False` with a reason string. -/
inductive Detection where
  | signal (sweep_candle confirm_candle : Candle) (sweep_index_from_end : Nat)
  | noSignal (reason : String)
deriving DecidableEq, Repr

/-- Guarded candle range from bot.py line 105:
`range_ = high - low if high - low > 0 else 1e-6`. -/
def sweepRange (c : Candle) : ℚ :=
  if c.high - c.low > 0 then c.high - c.low else 1 / 1000000

/-- Loop-body test of bot.py lines 102-108 for the triple
`(window[i-1], window[i], window[i+1])`: higher high than both neighbours,
upper-wick fraction above 0.4, and the next candle closing red. -/
def isSweepTriple (prev cur nxt : Candle) : Prop :=
  prev.high < cur.high ∧ nxt.high < cur.high ∧
    (cur.high - max cur.open_ cur.close) / sweepRange cur > 2 / 5 ∧
    nxt.close < nxt.open_

instance (p c n : Candle) : Decidable (isSweepTriple p c n) := by
  unfold isSweepTriple; exact inferInstance

/-- The left-to-right scan `for i in range(1, len(window) - 1)` of bot.py
lines 101-114; the `Nat` argument is the window index of the middle candle of
the current triple, and the scan stops at the first qualifying triple. -/
def findSweepAux : Nat → List Candle → Option (Candle × Candle × Nat)
  | _, [] => none
  | _, [_] => none
  | _, [_, _] => none
  | i, prev :: cur :: nxt :: rest =>
    if isSweepTriple prev cur nxt then some (cur, nxt, i)
    else findSweepAux (i + 1) (cur :: nxt :: rest)

/-- Embedding of `detect_sweep_and_red` (bot.py lines 88-116). -/
def detect_sweep_and_red (candles_15m : List Candle) (lookback : Nat) : Detection :=
  if candles_15m.length < lookback + 2 then .noSignal "not_enough_data"
  else
    match findSweepAux 1 (lastN (lookback + 1) candles_15m) with
    | some (cur, nxt, i) =>
        .signal cur nxt ((lastN (lookback + 1) candles_15m).length - (i + 1))
    | none => .noSignal "no_sweep_found"

/-- The loop body fires at offset `m` of the scanned list `l`, i.e. on the
triple `(l[m], l[m+1], l[m+2])`. -/
def hitAt (l : List Candle) (m : Nat) : Prop :=
  m + 2 < l.length ∧
    isSweepTriple (l.getD m defaultCandle) (l.getD (m + 1) defaultCandle)
      (l.getD (m + 2) defaultCandle)

instance (l : List Candle) (m : Nat) : Decidable (hitAt l m) := by
  unfold hitAt; exact inferInstance

/-- The bearish-sweep conditions exactly as the design document states them
for window index `j`: `high[j] > high[j-1]`, `high[j] > high[j+1]`, upper wick
fraction `(high[j] - max(open[j], close[j])) / (high[j] - low[j]) > 0.40`, and
the next candle closes red. -/
def specQualifies (w : List Candle) (j : Nat) : Prop :=
  0 < j ∧ j + 1 < w.length ∧
    (w.getD (j - 1) defaultCandle).high < (w.getD j defaultCandle).high ∧
    (w.getD (j + 1) defaultCandle).high < (w.getD j defaultCandle).high ∧
    2 / 5 < ((w.getD j defaultCandle).high -
        max (w.getD j defaultCandle).open_ (w.getD j defaultCandle).close) /
      ((w.getD j defaultCandle).high - (w.getD j defaultCandle).low) ∧
    (w.getD (j + 1) defaultCandle).close < (w.getD (j + 1) defaultCandle).open_

instance (w : List Candle) (j : Nat) : Decidable (specQualifies w j) := by
  unfold specQualifies; exact inferInstance

/-- Error values of the embedded fragment.  `valueError` and `indexError` are
what the Python code can actually raise (`min`/`max` of an empty sequence,
`[-1]` on an empty list); `emptyInputError` and `insufficientDataError` are
the dedicated tagged errors named by the design document, which this code
never raises. -/
inductive PyError where
  | valueError
  | indexError
  | emptyInputError
  | insufficientDataError
deriving DecidableEq, Repr

structure LiquidityZones where
  recent_low : ℚ
  recent_high : ℚ
  last_close : ℚ
deriving DecidableEq, Repr

/-- Embedding of `compute_liquidity_zones` (bot.py lines 119-126).  On an
empty series Python's `min([])` raises `ValueError`; the `lookback_hours`
parameter is declared (default 24) but never read. -/
def compute_liquidity_zones (candles : List Candle) (lookback_hours : ℚ) :
    Except PyError LiquidityZones :=
  match candles with
  | [] => .error .valueError
  | c :: cs =>
    .ok { recent_low := (cs.map Candle.low).foldl min c.low
          recent_high := (cs.map Candle.high).foldl max c.high
          last_close := (cs.getLastD c).close }

structure TradePlan where
  side : String
  entry : ℚ
  sl : ℚ
  tp : ℚ
  tp1 : ℚ
  confidence : ℚ
  logic : String
deriving DecidableEq, Repr

/-- Embedding of `build_xau_short_plan` (bot.py lines 130-151); `sweep` and
`confirm` are the detection's `sweep_candle` and `confirm_candle`. -/
def build_xau_short_plan (latest_15m latest_5m : Candle) (sweep confirm : Candle) :
    TradePlan :=
  let sweep_high := sweep.high
  let pip_value : ℚ := 1 / 100
  let sl_price := sweep_high + XAU_SL_PIPS * pip_value
  let entry := min (confirm.open_ - 2 / 100) ((confirm.close + sweep_high) / 2)
  let rr_distance := sl_price - entry
  let tp := entry - rr_distance * RR
  let tp1 := entry - rr_distance * 1
  { side := "SHORT", entry := round3 entry, sl := round3 sl_price,
    tp := round3 tp, tp1 := round3 tp1, confidence := 85 / 100,
    logic := "Sweep up + red confirm on 15m" }

/-- Embedding of `build_btc_short_plan` (bot.py lines 154-174). -/
def build_btc_short_plan (latest_15m latest_5m : Candle) (sweep confirm : Candle) :
    TradePlan :=
  let sweep_high := sweep.high
  let sl_price := sweep_high + BTC_SL_USD
  let entry := min (confirm.open_ - 1) ((confirm.close + sweep_high) / 2)
  let rr_distance := sl_price - entry
  let tp := entry - rr_distance * RR
  let tp1 := entry - rr_distance * 1
  { side := "SHORT", entry := round2 entry, sl := round2 sl_price,
    tp := round2 tp, tp1 := round2 tp1, confidence := 75 / 100,
    logic := "Sweep up + red confirm on 15m" }

/-- The result dict assembled by `get_and_analyze` (bot.py lines 190-196),
with the optional `"plan"` key as an `Option`. -/
structure AnalysisResult where
  symbol : String
  detection : Detection
  liquidity : LiquidityZones
  latest_15m : Candle
  latest_5m : Candle
  plan : Option TradePlan
deriving DecidableEq, Repr

def exceptIsOk (e : Except PyError AnalysisResult) : Bool :=
  match e with
  | .ok _ => true
  | .error _ => false

/-- Embedding of the pure part of `get_and_analyze` (bot.py lines 185-204),
taking the already-fetched-and-parsed 15-minute and 5-minute candle series.
Python evaluates the liquidity summary over `candles_15m[-96:]` before
indexing `candles_15m[-1]` and `candles_5m[-1]`, so an empty 15m series
surfaces as the summarizer's `ValueError`. -/
def get_and_analyze (symbol : String) (candles_15m candles_5m : List Candle) :
    Except PyError AnalysisResult :=
  let detection := detect_sweep_and_red candles_15m 6
  match compute_liquidity_zones (lastN 96 candles_15m) 24 with
  | .error e => .error e
  | .ok liquidity =>
    match candles_15m, candles_5m with
    | [], _ => .error .indexError
    | _ :: _, [] => .error .indexError
    | a :: t, b :: u =>
      let latest_15m := t.getLastD a
      let latest_5m := u.getLastD b
      let plan : Option TradePlan :=
        match detection with
        | .signal s c _ =>
            if (symbol.splitOn "XAU").length ≠ 1 then
              some (build_xau_short_plan latest_15m latest_5m s c)
            else
              some (build_btc_short_plan latest_15m latest_5m s c)
        | .noSignal _ => none
      .ok { symbol := symbol, detection := detection, liquidity := liquidity,
            latest_15m := latest_15m, latest_5m := latest_5m, plan := plan }

/-- A flat candle (zero range) used for concrete test series. -/
def flatC : Candle := ⟨0, 1, 1, 1, 1, 0⟩

/-- A sweep candle: long upper wick (wick fraction 1 > 0.4). -/
def w1c : Candle := ⟨0, 1, 6, 1, 1, 0⟩

/-- A red confirmation candle below the sweep high. -/
def w2c : Candle := ⟨0, 3, 4, 2, 2, 0⟩

/-- Eight candles whose scanned window qualifies first at window index 1. -/
def cs8 : List Candle := [flatC, flatC, w1c, w2c, flatC, flatC, flatC, flatC]

/-- Eight flat candles: long enough, but nothing qualifies. -/
def flat8 : List Candle := [flatC, flatC, flatC, flatC, flatC, flatC, flatC, flatC]

/-- Five flat candles: shorter than every minimum the spec mentions. -/
def cs5 : List Candle := [flatC, flatC, flatC, flatC, flatC]

theorem round3_sub_le (x : ℚ) : |round3 x - x| ≤ 1 / 2000 := by
  have h : |x * 1000 - (round (x * 1000) : ℚ)| ≤ 1 / 2 := abs_sub_round (x * 1000)
  have e : round3 x - x = -((x * 1000 - (round (x * 1000) : ℚ)) / 1000) := by
    unfold round3; ring
  rw [e, abs_neg, abs_div]
  rw [show |(1000 : ℚ)| = 1000 by norm_num]
  linarith

theorem round2_sub_le (x : ℚ) : |round2 x - x| ≤ 1 / 200 := by
  have h : |x * 100 - (round (x * 100) : ℚ)| ≤ 1 / 2 := abs_sub_round (x * 100)
  have e : round2 x - x = -((x * 100 - (round (x * 100) : ℚ)) / 100) := by
    unfold round2; ring
  rw [e, abs_neg, abs_div]
  rw [show |(100 : ℚ)| = 100 by norm_num]
  linarith

theorem round3_lt_round3 (x y : ℚ) (h : x + 1 / 1000 < y) : round3 x < round3 y := by
  have hx := abs_le.mp (round3_sub_le x)
  have hy := abs_le.mp (round3_sub_le y)
  linarith [hx.1, hx.2, hy.1, hy.2]

theorem round2_lt_round2 (x y : ℚ) (h : x + 1 / 100 < y) : round2 x < round2 y := by
  have hx := abs_le.mp (round2_sub_le x)
  have hy := abs_le.mp (round2_sub_le y)
  linarith [hx.1, hx.2, hy.1, hy.2]

theorem hitAt_cons_succ (a : Candle) (t : List Candle) (m : Nat) :
    hitAt (a :: t) (m + 1) ↔ hitAt t m := by
  have e1 : (a :: t).getD (m + 1) defaultCandle = t.getD m defaultCandle := rfl
  have e2 : (a :: t).getD (m + 1 + 1) defaultCandle = t.getD (m + 1) defaultCandle := rfl
  have e3 : (a :: t).getD (m + 1 + 2) defaultCandle = t.getD (m + 2) defaultCandle := rfl
  unfold hitAt
  rw [e1, e2, e3, List.length_cons]
  constructor
  · rintro ⟨h1, h2⟩; exact ⟨by omega, h2⟩
  · rintro ⟨h1, h2⟩; exact ⟨by omega, h2⟩

theorem hitAt_zero_cons3 (a b c : Candle) (rest : List Candle) :
    hitAt (a :: b :: c :: rest) 0 ↔ isSweepTriple a b c := by
  have e1 : (a :: b :: c :: rest).getD 0 defaultCandle = a := rfl
  have e2 : (a :: b :: c :: rest).getD (0 + 1) defaultCandle = b := rfl
  have e3 : (a :: b :: c :: rest).getD (0 + 2) defaultCandle = c := rfl
  unfold hitAt
  rw [e1, e2, e3]
  simp only [List.length_cons]
  constructor
  · rintro ⟨_, h⟩; exact h
  · intro h; exact ⟨by omega, h⟩

theorem findSweepAux_none (l : List Candle) :
    ∀ k, findSweepAux k l = none ↔ ∀ m, ¬ hitAt l m := by
  induction l with
  | nil =>
    intro k
    constructor
    · intro _ m hm; exact absurd hm.1 (by simp)
    · intro _; rfl
  | cons a t ih =>
    rcases t with _ | ⟨b, t2⟩
    · intro k
      constructor
      · intro _ m hm
        have := hm.1
        simp only [List.length_cons, List.length_nil] at this
        omega
      · intro _; rfl
    · rcases t2 with _ | ⟨c, rest⟩
      · intro k
        constructor
        · intro _ m hm
          have := hm.1
          simp only [List.length_cons, List.length_nil] at this
          omega
        · intro _; rfl
      · intro k
        simp only [findSweepAux]
        by_cases htrip : isSweepTriple a b c
        · rw [if_pos htrip]
          constructor
          · intro h; exact absurd h (by simp)
          · intro hall
            exact absurd ((hitAt_zero_cons3 a b c rest).mpr htrip) (hall 0)
        · rw [if_neg htrip]
          rw [ih (k + 1)]
          constructor
          · intro h m
            cases m with
            | zero =>
              rw [hitAt_zero_cons3]; exact htrip
            | succ m' =>
              rw [hitAt_cons_succ]; exact h m'
          · intro h m
            have := h (m + 1)
            rw [hitAt_cons_succ] at this
            exact this

theorem findSweepAux_some (l : List Candle) :
    ∀ k s c2 i, findSweepAux k l = some (s, c2, i) ↔
      ∃ m, hitAt l m ∧ (∀ m' < m, ¬ hitAt l m') ∧
        s = l.getD (m + 1) defaultCandle ∧ c2 = l.getD (m + 2) defaultCandle ∧
        i = k + m := by
  induction l with
  | nil =>
    intro k s c2 i
    constructor
    · intro h; exact absurd h (by simp [findSweepAux])
    · rintro ⟨m, hm, -⟩
      have := hm.1
      simp at this
  | cons a t ih =>
    rcases t with _ | ⟨b, t2⟩
    · intro k s c2 i
      constructor
      · intro h; exact absurd h (by simp [findSweepAux])
      · rintro ⟨m, hm, -⟩
        have := hm.1
        simp only [List.length_cons, List.length_nil] at this
        omega
    · rcases t2 with _ | ⟨c, rest⟩
      · intro k s c2 i
        constructor
        · intro h; exact absurd h (by simp [findSweepAux])
        · rintro ⟨m, hm, -⟩
          have := hm.1
          simp only [List.length_cons, List.length_nil] at this
          omega
      · intro k s c2 i
        simp only [findSweepAux]
        by_cases htrip : isSweepTriple a b c
        · rw [if_pos htrip]
          constructor
          · intro h
            have hbs : b = s ∧ c = c2 ∧ k = i := by
              have := Option.some.inj h
              exact ⟨congrArg Prod.fst this,
                congrArg Prod.fst (congrArg Prod.snd this),
                congrArg Prod.snd (congrArg Prod.snd this)⟩
            refine ⟨0, (hitAt_zero_cons3 a b c rest).mpr htrip, ?_, ?_, ?_, ?_⟩
            · intro m' hm'; omega
            · exact hbs.1.symm
            · exact hbs.2.1.symm
            · omega
          · rintro ⟨m, hm, hmin, hs, hc2, hi⟩
            cases m with
            | zero =>
              have es : (a :: b :: c :: rest).getD (0 + 1) defaultCandle = b := rfl
              have ec : (a :: b :: c :: rest).getD (0 + 2) defaultCandle = c := rfl
              rw [es] at hs
              rw [ec] at hc2
              rw [hs, hc2, hi]
              norm_num
            | succ m' =>
              exact absurd ((hitAt_zero_cons3 a b c rest).mpr htrip)
                (hmin 0 (Nat.succ_pos m'))
        · rw [if_neg htrip]
          rw [ih (k + 1) s c2 i]
          constructor
          · rintro ⟨m, hm, hmin, hs, hc2, hi⟩
            refine ⟨m + 1, (hitAt_cons_succ a (b :: c :: rest) m).mpr hm, ?_, ?_, ?_, ?_⟩
            · intro m' hm'
              cases m' with
              | zero => rw [hitAt_zero_cons3]; exact htrip
              | succ m'' =>
                rw [hitAt_cons_succ]
                exact hmin m'' (by omega)
            · have e : (a :: b :: c :: rest).getD (m + 1 + 1) defaultCandle =
                  (b :: c :: rest).getD (m + 1) defaultCandle := rfl
              rw [e]; exact hs
            · have e : (a :: b :: c :: rest).getD (m + 1 + 2) defaultCandle =
                  (b :: c :: rest).getD (m + 2) defaultCandle := rfl
              rw [e]; exact hc2
            · omega
          · rintro ⟨m, hm, hmin, hs, hc2, hi⟩
            cases m with
            | zero =>
              exact absurd ((hitAt_zero_cons3 a b c rest).mp hm) htrip
            | succ m'' =>
              rw [hitAt_cons_succ] at hm
              refine ⟨m'', hm, ?_, ?_, ?_, ?_⟩
              · intro m' hm'
                have := hmin (m' + 1) (by omega)
                rw [hitAt_cons_succ] at this
                exact this
              · have e : (a :: b :: c :: rest).getD (m'' + 1 + 1) defaultCandle =
                    (b :: c :: rest).getD (m'' + 1) defaultCandle := rfl
                rw [e] at hs; exact hs
              · have e : (a :: b :: c :: rest).getD (m'' + 1 + 2) defaultCandle =
                    (b :: c :: rest).getD (m'' + 2) defaultCandle := rfl
                rw [e] at hc2; exact hc2
              · omega

theorem lastN_subset (n : Nat) (l : List α) : lastN n l ⊆ l := by
  unfold lastN
  exact List.drop_subset _ _

theorem getD_mem_of_lt (l : List Candle) (n : Nat) (h : n < l.length) :
    l.getD n defaultCandle ∈ l := by
  induction l generalizing n with
  | nil => simp at h
  | cons a t ih =>
    cases n with
    | zero => exact List.mem_cons_self a t
    | succ n' =>
      have e : (a :: t).getD (n' + 1) defaultCandle = t.getD n' defaultCandle := rfl
      rw [e]
      exact List.mem_cons_of_mem a (ih n' (by simpa using h))

theorem candleInv_low_le_high (c : Candle) (hc : CandleInv c) : c.low ≤ c.high :=
  le_trans (le_trans hc.1 min_le_max) hc.2

theorem wickFrac_iff (c : Candle) (hc : CandleInv c) :
    (2 / 5 < (c.high - max c.open_ c.close) / sweepRange c) ↔
      (2 / 5 < (c.high - max c.open_ c.close) / (c.high - c.low)) := by
  unfold sweepRange
  by_cases h : c.high - c.low > 0
  · rw [if_pos h]
  · rw [if_neg h]
    have h1 : c.low ≤ c.high := candleInv_low_le_high c hc
    have h2 : c.high = c.low := by
      have := not_lt.mp h
      linarith
    have h3 : max c.open_ c.close = c.high := by
      refine le_antisymm hc.2 ?_
      calc c.high = c.low := h2
        _ ≤ min c.open_ c.close := hc.1
        _ ≤ max c.open_ c.close := min_le_max
    rw [h3, sub_self, zero_div, zero_div]

theorem hitAt_iff_specQualifies (w : List Candle) (hinvW : ∀ c ∈ w, CandleInv c)
    (m : Nat) : hitAt w m ↔ specQualifies w (m + 1) := by
  unfold hitAt specQualifies
  have e0 : m + 1 - 1 = m := rfl
  have e1 : m + 1 + 1 = m + 2 := rfl
  rw [e0, e1]
  by_cases hb : m + 2 < w.length
  · have hmem : w.getD (m + 1) defaultCandle ∈ w :=
      getD_mem_of_lt w (m + 1) (by omega)
    have hfrac := wickFrac_iff (w.getD (m + 1) defaultCandle) (hinvW _ hmem)
    unfold isSweepTriple
    constructor
    · rintro ⟨-, h1, h2, h3, h4⟩
      exact ⟨by omega, hb, h1, h2, hfrac.mp h3, h4⟩
    · rintro ⟨-, -, h1, h2, h3, h4⟩
      exact ⟨hb, h1, h2, hfrac.mpr h3, h4⟩
  · constructor
    · rintro ⟨h, -⟩; exact absurd h hb
    · rintro ⟨-, h, -⟩; exact absurd h hb

theorem detect_signal_iff (candles : List Candle) (L : Nat)
    (hlen : L + 2 ≤ candles.length) (s c2 : Candle) (i : Nat) :
    detect_sweep_and_red candles L = .signal s c2 i ↔
      ∃ m, hitAt (lastN (L + 1) candles) m ∧
        (∀ m' < m, ¬ hitAt (lastN (L + 1) candles) m') ∧
        s = (lastN (L + 1) candles).getD (m + 1) defaultCandle ∧
        c2 = (lastN (L + 1) candles).getD (m + 2) defaultCandle ∧
        i = (lastN (L + 1) candles).length - (m + 2) := by
  unfold detect_sweep_and_red
  rw [if_neg (by omega)]
  cases hfs : findSweepAux 1 (lastN (L + 1) candles) with
  | none =>
    constructor
    · intro h; exact absurd h (by simp)
    · rintro ⟨m, hm, -⟩
      exact absurd hm ((findSweepAux_none _ 1).mp hfs m)
  | some val =>
    obtain ⟨s', c2', i'⟩ := val
    obtain ⟨m0, hm0, hmin0, hs0, hc0, hi0⟩ :=
      (findSweepAux_some (lastN (L + 1) candles) 1 s' c2' i').mp hfs
    constructor
    · intro h
      have hinj : s' = s ∧ c2' = c2 ∧ (lastN (L + 1) candles).length - (i' + 1) = i := by
        have h1 := h
        simp only [Detection.signal.injEq] at h1
        exact h1
      refine ⟨m0, hm0, hmin0, ?_, ?_, ?_⟩
      · rw [← hinj.1]; exact hs0
      · rw [← hinj.2.1]; exact hc0
      · omega
    · rintro ⟨m, hm, hmin, hs, hc, hi⟩
      have hmm0 : m = m0 := by
        rcases Nat.lt_trichotomy m m0 with hlt | heq | hgt
        · exact absurd hm (hmin0 m hlt)
        · exact heq
        · exact absurd hm0 (hmin m0 hgt)
      subst hmm0
      have h1 : s' = s := hs0.trans hs.symm
      have h2 : c2' = c2 := hc0.trans hc.symm
      have h3 : (lastN (L + 1) candles).length - (i' + 1) = i := by omega
      rw [h1, h2]
      show Detection.signal s c2 ((lastN (L + 1) candles).length - (i' + 1)) =
        Detection.signal s c2 i
      rw [h3]

theorem detect_signal_facts (candles : List Candle) (L : Nat)
    (hinv : ∀ c ∈ candles, CandleInv c) (s c2 : Candle) (i : Nat)
    (hdet : detect_sweep_and_red candles L = .signal s c2 i) :
    CandleInv s ∧ CandleInv c2 ∧ c2.high < s.high ∧ c2.close < c2.open_ ∧
      2 / 5 < (s.high - max s.open_ s.close) / sweepRange s := by
  have hinvW : ∀ c ∈ lastN (L + 1) candles, CandleInv c :=
    fun c hc => hinv c (lastN_subset (L + 1) candles hc)
  by_cases hlen : candles.length < L + 2
  · unfold detect_sweep_and_red at hdet
    rw [if_pos hlen] at hdet
    exact absurd hdet (by simp)
  · obtain ⟨m, hm, -, hs, hc, -⟩ :=
      (detect_signal_iff candles L (by omega) s c2 i).mp hdet
    obtain ⟨hb, htrip⟩ := hm
    have hsmem : (lastN (L + 1) candles).getD (m + 1) defaultCandle ∈
        lastN (L + 1) candles := getD_mem_of_lt _ (m + 1) (by omega)
    have hcmem : (lastN (L + 1) candles).getD (m + 2) defaultCandle ∈
        lastN (L + 1) candles := getD_mem_of_lt _ (m + 2) hb
    subst hs hc
    unfold isSweepTriple at htrip
    exact ⟨hinvW _ hsmem, hinvW _ hcmem, htrip.2.1, htrip.2.2.2, htrip.2.2.1⟩

theorem foldl_min_le (l : List ℚ) :
    ∀ a : ℚ, l.foldl min a ≤ a ∧ ∀ x ∈ l, l.foldl min a ≤ x := by
  induction l with
  | nil => intro a; exact ⟨le_refl a, by simp⟩
  | cons b t ih =>
    intro a
    constructor
    · exact le_trans (ih (min a b)).1 (min_le_left a b)
    · intro x hx
      rcases List.mem_cons.mp hx with hx | hx
      · rw [hx]
        exact le_trans (ih (min a b)).1 (min_le_right a b)
      · exact (ih (min a b)).2 x hx

theorem foldl_min_mem (l : List ℚ) :
    ∀ a : ℚ, l.foldl min a = a ∨ l.foldl min a ∈ l := by
  induction l with
  | nil => intro a; exact Or.inl rfl
  | cons b t ih =>
    intro a
    rcases ih (min a b) with h | h
    · rcases le_total a b with hab | hab
      · left
        show t.foldl min (min a b) = a
        rw [h, min_eq_left hab]
      · right
        show t.foldl min (min a b) ∈ b :: t
        rw [h, min_eq_right hab]
        exact List.mem_cons_self b t
    · right
      exact List.mem_cons_of_mem b h

theorem foldl_max_le (l : List ℚ) :
    ∀ a : ℚ, a ≤ l.foldl max a ∧ ∀ x ∈ l, x ≤ l.foldl max a := by
  induction l with
  | nil => intro a; exact ⟨le_refl a, by simp⟩
  | cons b t ih =>
    intro a
    constructor
    · exact le_trans (le_max_left a b) (ih (max a b)).1
    · intro x hx
      rcases List.mem_cons.mp hx with hx | hx
      · rw [hx]
        exact le_trans (le_max_right a b) (ih (max a b)).1
      · exact (ih (max a b)).2 x hx

theorem foldl_max_mem (l : List ℚ) :
    ∀ a : ℚ, l.foldl max a = a ∨ l.foldl max a ∈ l := by
  induction l with
  | nil => intro a; exact Or.inl rfl
  | cons b t ih =>
    intro a
    rcases ih (max a b) with h | h
    · rcases le_total a b with hab | hab
      · right
        show t.foldl max (max a b) ∈ b :: t
        rw [h, max_eq_right hab]
        exact List.mem_cons_self b t
      · left
        show t.foldl max (max a b) = a
        rw [h, max_eq_left hab]
    · right
      exact List.mem_cons_of_mem b h

theorem notTriple_flat : ¬ isSweepTriple flatC flatC flatC := by
  intro h
  have := h.1
  norm_num [flatC] at this

theorem detect_flat8_eq :
    detect_sweep_and_red flat8 6 = .noSignal "no_sweep_found" := by
  unfold detect_sweep_and_red
  rw [if_neg (by norm_num [flat8])]
  have h7 : lastN (6 + 1) flat8 =
      [flatC, flatC, flatC, flatC, flatC, flatC, flatC] := rfl
  rw [h7]
  have hfs : findSweepAux 1 [flatC, flatC, flatC, flatC, flatC, flatC, flatC] =
      none := by
    simp [findSweepAux, notTriple_flat]
  rw [hfs]

theorem triple_cs8 : isSweepTriple flatC w1c w2c := by
  refine ⟨?_, ?_, ?_, ?_⟩ <;> norm_num [flatC, w1c, w2c, sweepRange]

theorem detect_cs8_eq :
    detect_sweep_and_red cs8 6 = .signal w1c w2c 5 := by
  unfold detect_sweep_and_red
  rw [if_neg (by norm_num [cs8])]
  have h7 : lastN (6 + 1) cs8 =
      [flatC, w1c, w2c, flatC, flatC, flatC, flatC] := rfl
  rw [h7]
  have hfs : findSweepAux 1 [flatC, w1c, w2c, flatC, flatC, flatC, flatC] =
      some (w1c, w2c, 1) := by
    simp only [findSweepAux, if_pos triple_cs8]
  rw [hfs]
  rfl

theorem lastN_cons_ne_nil (n : Nat) (a : α) (t : List α) (hn : 0 < n) :
    lastN n (a :: t) ≠ [] := by
  unfold lastN
  intro h
  have := List.drop_eq_nil_iff.mp h
  simp only [List.length_cons] at this
  omega

theorem analyze_empty15 (symbol : String) (c5 : List Candle) :
    get_and_analyze symbol [] c5 = .error .valueError := rfl

theorem analyze_empty5 (symbol : String) (a : Candle) (t : List Candle) :
    get_and_analyze symbol (a :: t) [] = .error .indexError := by
  unfold get_and_analyze
  rcases hW : lastN 96 (a :: t) with _ | ⟨m, ms⟩
  · exact absurd hW (lastN_cons_ne_nil 96 a t (by norm_num))
  · rfl

theorem analyze_nonempty_ok (symbol : String) (a b : Candle) (t u : List Candle) :
    exceptIsOk (get_and_analyze symbol (a :: t) (b :: u)) = true := by
  unfold get_and_analyze
  rcases hW : lastN 96 (a :: t) with _ | ⟨m, ms⟩
  · exact absurd hW (lastN_cons_ne_nil 96 a t (by norm_num))
  · rfl

/-- C3: the Short trade-plan builders compute `stopLoss = sweepHigh +
riskUnits` (20 pips of 0.01 for XAU, 350 USD for BTC), `entry =
min(confirm.open - smallOffset, (confirm.close + sweepHigh)/2)`,
`takeProfit = entry - (stopLoss - entry) * 4` and `takeProfit1 = entry -
(stopLoss - entry) * 1`, all at full precision, rounding each output exactly
once at the boundary (3 decimals for XAU, 2 for BTC); consequently each
rounded output is within half an output ulp of its full-precision value. -/
theorem short_plan_formulas (l15 l5 sweep confirm : Candle) :
    (build_xau_short_plan l15 l5 sweep confirm).sl =
      round3 (sweep.high + 20 * (1 / 100)) ∧
    (build_xau_short_plan l15 l5 sweep confirm).entry =
      round3 (min (confirm.open_ - 2 / 100) ((confirm.close + sweep.high) / 2)) ∧
    (build_xau_short_plan l15 l5 sweep confirm).tp =
      round3 (min (confirm.open_ - 2 / 100) ((confirm.close + sweep.high) / 2) -
        (sweep.high + 20 * (1 / 100) -
          min (confirm.open_ - 2 / 100) ((confirm.close + sweep.high) / 2)) * 4) ∧
    (build_xau_short_plan l15 l5 sweep confirm).tp1 =
      round3 (min (confirm.open_ - 2 / 100) ((confirm.close + sweep.high) / 2) -
        (sweep.high + 20 * (1 / 100) -
          min (confirm.open_ - 2 / 100) ((confirm.close + sweep.high) / 2)) * 1) ∧
    |(build_xau_short_plan l15 l5 sweep confirm).tp -
      (min (confirm.open_ - 2 / 100) ((confirm.close + sweep.high) / 2) -
        (sweep.high + 20 * (1 / 100) -
          min (confirm.open_ - 2 / 100) ((confirm.close + sweep.high) / 2)) * 4)| ≤
      1 / 2000 ∧
    (build_btc_short_plan l15 l5 sweep confirm).sl =
      round2 (sweep.high + 350) ∧
    (build_btc_short_plan l15 l5 sweep confirm).entry =
      round2 (min (confirm.open_ - 1) ((confirm.close + sweep.high) / 2)) ∧
    (build_btc_short_plan l15 l5 sweep confirm).tp =
      round2 (min (confirm.open_ - 1) ((confirm.close + sweep.high) / 2) -
        (sweep.high + 350 -
          min (confirm.open_ - 1) ((confirm.close + sweep.high) / 2)) * 4) ∧
    (build_btc_short_plan l15 l5 sweep confirm).tp1 =
      round2 (min (confirm.open_ - 1) ((confirm.close + sweep.high) / 2) -
        (sweep.high + 350 -
          min (confirm.open_ - 1) ((confirm.close + sweep.high) / 2)) * 1) ∧
    |(build_btc_short_plan l15 l5 sweep confirm).tp -
      (min (confirm.open_ - 1) ((confirm.close + sweep.high) / 2) -
        (sweep.high + 350 -
          min (confirm.open_ - 1) ((confirm.close + sweep.high) / 2)) * 4)| ≤
      1 / 200 := by
  refine ⟨rfl, rfl, rfl, rfl, ?_, rfl, rfl, rfl, rfl, ?_⟩
  · exact round3_sub_le _
  · exact round2_sub_le _

/-- C4 (amended): on an empty series `compute_liquidity_zones` fails with the
generic `ValueError` that Python's `min` raises, not a dedicated
`EmptyInputError`; on every non-empty series it succeeds with
`recent_low` = minimum of the lows, `recent_high` = maximum of the highs, and
`last_close` = close of the final candle. -/
theorem zones_spec (c : Candle) (cs : List Candle) (h : ℚ) :
    compute_liquidity_zones [] h = .error .valueError ∧
    ∃ z, compute_liquidity_zones (c :: cs) h = .ok z ∧
      z.recent_low ∈ (c :: cs).map Candle.low ∧
      (∀ x ∈ c :: cs, z.recent_low ≤ x.low) ∧
      z.recent_high ∈ (c :: cs).map Candle.high ∧
      (∀ x ∈ c :: cs, x.high ≤ z.recent_high) ∧
      z.last_close = ((c :: cs).getLastD defaultCandle).close := by
  refine ⟨rfl, _, rfl, ?_, ?_, ?_, ?_, ?_⟩
  · show (cs.map Candle.low).foldl min c.low ∈ (c :: cs).map Candle.low
    rw [List.map_cons]
    rcases foldl_min_mem (cs.map Candle.low) c.low with h1 | h1
    · rw [h1]; exact List.mem_cons_self _ _
    · exact List.mem_cons_of_mem _ h1
  · intro x hx
    show (cs.map Candle.low).foldl min c.low ≤ x.low
    rcases List.mem_cons.mp hx with hx | hx
    · rw [hx]
      exact (foldl_min_le (cs.map Candle.low) c.low).1
    · exact (foldl_min_le (cs.map Candle.low) c.low).2 x.low
        (List.mem_map_of_mem Candle.low hx)
  · show (cs.map Candle.high).foldl max c.high ∈ (c :: cs).map Candle.high
    rw [List.map_cons]
    rcases foldl_max_mem (cs.map Candle.high) c.high with h1 | h1
    · rw [h1]; exact List.mem_cons_self _ _
    · exact List.mem_cons_of_mem _ h1
  · intro x hx
    show x.high ≤ (cs.map Candle.high).foldl max c.high
    rcases List.mem_cons.mp hx with hx | hx
    · rw [hx]
      exact (foldl_max_le (cs.map Candle.high) c.high).1
    · exact (foldl_max_le (cs.map Candle.high) c.high).2 x.high
        (List.mem_map_of_mem Candle.high hx)
  · show (cs.getLastD c).close = ((c :: cs).getLastD defaultCandle).close
    rw [List.getLastD_cons]

/-- C4 counterexample: the empty series makes `compute_liquidity_zones` fail
with the generic `ValueError`, not the dedicated `EmptyInputError` the spec
names. -/
theorem zones_empty_cex :
    compute_liquidity_zones [] 24 = .error .valueError ∧
    compute_liquidity_zones [] 24 ≠ .error .emptyInputError := by
  refine ⟨rfl, ?_⟩
  intro h
  exact absurd (Except.error.inj h) (by decide)

/-- C5 (amended): `get_and_analyze` performs no minimum-length validation at
all: it never fails with `InsufficientDataError`, and for any two non-empty
series (of any length, even below the spec's threshold of 20) it produces an
ordinary analysis result. -/
theorem analyze_no_insufficient (symbol : String) (c15 c5 : List Candle)
    (a b : Candle) (t u : List Candle) :
    get_and_analyze symbol c15 c5 ≠ Except.error PyError.insufficientDataError ∧
    exceptIsOk (get_and_analyze symbol (a :: t) (b :: u)) = true := by
  constructor
  · rcases c15 with _ | ⟨a1, t1⟩
    · rw [analyze_empty15]
      intro h
      exact absurd (Except.error.inj h) (by decide)
    · rcases c5 with _ | ⟨b1, u1⟩
      · rw [analyze_empty5]
        intro h
        exact absurd (Except.error.inj h) (by decide)
      · intro h
        have hok := analyze_nonempty_ok symbol a1 b1 t1 u1
        rw [h] at hok
        exact absurd hok (by decide)
  · exact analyze_nonempty_ok symbol a b t u

/-- C5 counterexample: two five-candle series (shorter than the claimed
minimum of 20) do not produce `InsufficientDataError`; the orchestrator
returns an ordinary result. -/
theorem analyze_short_series_cex :
    exceptIsOk (get_and_analyze "XAU/USD" cs5 cs5) = true ∧
    get_and_analyze "XAU/USD" cs5 cs5 ≠ Except.error PyError.insufficientDataError := by
  have hok : exceptIsOk (get_and_analyze "XAU/USD" cs5 cs5) = true :=
    analyze_nonempty_ok "XAU/USD" flatC flatC
      [flatC, flatC, flatC, flatC] [flatC, flatC, flatC, flatC]
  refine ⟨hok, ?_⟩
  intro h
  rw [h] at hok
  exact absurd hok (by decide)

/-- C6: every series shorter than `lookback + 2` candles makes the sweep
detector return `NoSignal` with reason exactly `"not_enough_data"`,
independently of the candles' contents. -/
theorem detect_short_series (candles : List Candle) (lookback : Nat)
    (h : candles.length < lookback + 2) :
    detect_sweep_and_red candles lookback = .noSignal "not_enough_data" := by
  unfold detect_sweep_and_red
  rw [if_pos h]

/-- C6 witness: the empty series. -/
theorem detect_short_series_witness :
    detect_sweep_and_red [] 6 = Detection.noSignal "not_enough_data" :=
  detect_short_series [] 6 (by simp)

/-- C9: the analysis pipeline is deterministic — two invocations on identical
symbol and candle series yield identical assembled results; the embedded
orchestrator reads nothing but its arguments (no hidden state, no clock). -/
theorem analyze_deterministic (symbol : String) (c15 c5 c15b c5b : List Candle)
    (h15 : c15 = c15b) (h5 : c5 = c5b) :
    get_and_analyze symbol c15 c5 = get_and_analyze symbol c15b c5b := by
  rw [h15, h5]

/-- C9 witness: a concrete repeated invocation. -/
theorem analyze_deterministic_witness :
    get_and_analyze "XAU/USD" flat8 cs5 = get_and_analyze "XAU/USD" flat8 cs5 :=
  analyze_deterministic "XAU/USD" flat8 cs5 flat8 cs5 rfl rfl

/-- C10: `compute_liquidity_zones` never reads its `lookback_hours`
parameter, so its result is the same for any two values of it. -/
theorem zones_lookback_independent (candles : List Candle) (h1 h2 : ℚ) :
    compute_liquidity_zones candles h1 = compute_liquidity_zones candles h2 := rfl

/-- C2: for every well-formed series of length at least `lookback + 2`, the
sweep detector returns a Signal exactly when some interior window index
satisfies the four stated conditions (higher high than both neighbours, upper
wick fraction above 0.40, red next candle), and the returned sweep candle is
the first qualifying one, with its successor as confirmation candle — it
never returns a later qualifying candle when an earlier one qualifies. -/
theorem detect_first_match (candles : List Candle) (lookback : Nat)
    (hinv : ∀ c ∈ candles, CandleInv c) (hlen : lookback + 2 ≤ candles.length)
    (s c2 : Candle) (i : Nat) :
    detect_sweep_and_red candles lookback = .signal s c2 i ↔
      ∃ j, specQualifies (lastN (lookback + 1) candles) j ∧
        (∀ j' < j, ¬ specQualifies (lastN (lookback + 1) candles) j') ∧
        s = (lastN (lookback + 1) candles).getD j defaultCandle ∧
        c2 = (lastN (lookback + 1) candles).getD (j + 1) defaultCandle ∧
        i = (lastN (lookback + 1) candles).length - (j + 1) := by
  have hinvW : ∀ c ∈ lastN (lookback + 1) candles, CandleInv c :=
    fun c hc => hinv c (lastN_subset _ candles hc)
  rw [detect_signal_iff candles lookback hlen s c2 i]
  constructor
  · rintro ⟨m, hm, hmin, hs, hc, hi⟩
    refine ⟨m + 1, (hitAt_iff_specQualifies _ hinvW m).mp hm, ?_, hs, ?_, ?_⟩
    · intro j' hj'
      cases j' with
      | zero =>
        intro hsq
        exact absurd hsq.1 (Nat.lt_irrefl 0)
      | succ m' =>
        rw [← hitAt_iff_specQualifies _ hinvW m']
        exact hmin m' (by omega)
    · rw [show m + 1 + 1 = m + 2 from rfl]
      exact hc
    · rw [show m + 1 + 1 = m + 2 from rfl]
      exact hi
  · rintro ⟨j, hsq, hmin, hs, hc, hi⟩
    have hj0 : 0 < j := hsq.1
    obtain ⟨m, rfl⟩ : ∃ m, j = m + 1 := ⟨j - 1, by omega⟩
    refine ⟨m, (hitAt_iff_specQualifies _ hinvW m).mpr hsq, ?_, hs, ?_, ?_⟩
    · intro m' hm'
      rw [hitAt_iff_specQualifies _ hinvW m']
      exact hmin (m' + 1) (by omega)
    · rw [show m + 2 = m + 1 + 1 from rfl]
      exact hc
    · rw [show m + 2 = m + 1 + 1 from rfl]
      exact hi

/-- C2 witness: a concrete eight-candle series whose first interior window
index qualifies; the detector returns exactly that candle and its successor. -/
theorem detect_first_match_witness :
    detect_sweep_and_red cs8 6 = Detection.signal w1c w2c 5 := by
  apply (detect_first_match cs8 6 (by decide) (by decide) w1c w2c 5).mpr
  refine ⟨1, ⟨by decide, by decide, by decide, by decide, ?_, by decide⟩,
    ?_, rfl, rfl, rfl⟩
  · show (2 : ℚ) / 5 < (6 - max 1 1) / (6 - 1)
    norm_num
  · intro j' hj'
    have hz : j' = 0 := by omega
    subst hz
    intro hsq
    exact absurd hsq.1 (Nat.lt_irrefl 0)

/-- C7 (amended): when the series is long enough but no interior candle of
the scanned window qualifies as a bearish sweep, the detector returns
`NoSignal` with reason exactly `"no_sweep_found"` (the code's literal), not
`"no_sweep"` as the spec writes. -/
theorem no_sweep_reason (candles : List Candle) (lookback : Nat)
    (hinv : ∀ c ∈ candles, CandleInv c) (hlen : lookback + 2 ≤ candles.length)
    (hnone : ∀ j < (lastN (lookback + 1) candles).length,
      ¬ specQualifies (lastN (lookback + 1) candles) j) :
    detect_sweep_and_red candles lookback = .noSignal "no_sweep_found" := by
  have hinvW : ∀ c ∈ lastN (lookback + 1) candles, CandleInv c :=
    fun c hc => hinv c (lastN_subset _ candles hc)
  unfold detect_sweep_and_red
  rw [if_neg (by omega)]
  have hfs : findSweepAux 1 (lastN (lookback + 1) candles) = none := by
    rw [findSweepAux_none]
    intro m hm
    have hb := hm.1
    exact hnone (m + 1) (by omega) ((hitAt_iff_specQualifies _ hinvW m).mp hm)
  rw [hfs]

/-- C7 witness: eight flat candles, where nothing qualifies. -/
theorem no_sweep_reason_witness :
    detect_sweep_and_red flat8 6 = Detection.noSignal "no_sweep_found" :=
  no_sweep_reason flat8 6 (by decide) (by decide) (by decide)

/-- C7 counterexample: on a qualifying-free series the reason string is the
code's `"no_sweep_found"`, so the spec's claimed reason `"no_sweep"` is never
produced. -/
theorem detect_no_sweep_cex :
    detect_sweep_and_red flat8 6 = Detection.noSignal "no_sweep_found" ∧
    detect_sweep_and_red flat8 6 ≠ Detection.noSignal "no_sweep" := by
  refine ⟨detect_flat8_eq, ?_⟩
  rw [detect_flat8_eq]
  intro h
  exact absurd (Detection.noSignal.inj h) (by decide)

/-- C8: the wick-fraction division in the sweep detector is guarded — its
denominator is always strictly positive — and, for well-formed candles, a
zero-range candle can never be returned as the sweep candle (the returned
sweep candle always has `low < high`). -/
theorem sweep_zero_range_safe :
    (∀ c : Candle, 0 < sweepRange c) ∧
    ∀ (candles : List Candle) (lookback : Nat),
      (∀ c ∈ candles, CandleInv c) →
      ∀ s c2 i, detect_sweep_and_red candles lookback = .signal s c2 i →
        s.low < s.high := by
  constructor
  · intro c
    unfold sweepRange
    by_cases h : c.high - c.low > 0
    · rw [if_pos h]; linarith
    · rw [if_neg h]; norm_num
  · intro candles lookback hinv s c2 i hdet
    obtain ⟨hsInv, -, -, -, hfrac⟩ :=
      detect_signal_facts candles lookback hinv s c2 i hdet
    have hlh : s.low ≤ s.high := candleInv_low_le_high s hsInv
    rcases lt_or_eq_of_le hlh with h | h
    · exact h
    · exfalso
      have hmax : max s.open_ s.close = s.high := by
        refine le_antisymm hsInv.2 ?_
        calc s.high = s.low := h.symm
          _ ≤ min s.open_ s.close := hsInv.1
          _ ≤ max s.open_ s.close := min_le_max
      rw [hmax, sub_self, zero_div] at hfrac
      norm_num at hfrac

/-- C8 witness: the guard is positive on a concrete zero-range candle, and on
a concrete signalling series the returned sweep candle has positive range. -/
theorem sweep_zero_range_safe_witness :
    (0 : ℚ) < sweepRange flatC ∧ w1c.low < w1c.high :=
  ⟨sweep_zero_range_safe.1 flatC,
   sweep_zero_range_safe.2 cs8 6 (by decide) w1c w2c 5 detect_cs8_eq⟩

/-- C1: for well-formed input candles and any detection the sweep detector
actually produced, both Short plan builders yield plans satisfying
`takeProfit < entry < stopLoss` (on the rounded output prices). -/
theorem short_plan_invariant (candles : List Candle) (lookback : Nat)
    (l15 l5 l15b l5b : Candle)
    (hinv : ∀ c ∈ candles, CandleInv c) (s c2 : Candle) (i : Nat)
    (hdet : detect_sweep_and_red candles lookback = .signal s c2 i) :
    ((build_xau_short_plan l15 l5 s c2).tp < (build_xau_short_plan l15 l5 s c2).entry ∧
      (build_xau_short_plan l15 l5 s c2).entry < (build_xau_short_plan l15 l5 s c2).sl) ∧
    ((build_btc_short_plan l15b l5b s c2).tp < (build_btc_short_plan l15b l5b s c2).entry ∧
      (build_btc_short_plan l15b l5b s c2).entry < (build_btc_short_plan l15b l5b s c2).sl) := by
  obtain ⟨-, hcInv, hhigh, -, -⟩ :=
    detect_signal_facts candles lookback hinv s c2 i hdet
  have hclose : c2.close ≤ c2.high := le_trans (le_max_right _ _) hcInv.2
  have hx1 : (build_xau_short_plan l15 l5 s c2).entry =
      round3 (min (c2.open_ - 2 / 100) ((c2.close + s.high) / 2)) := rfl
  have hx2 : (build_xau_short_plan l15 l5 s c2).sl =
      round3 (s.high + 20 * (1 / 100)) := rfl
  have hx3 : (build_xau_short_plan l15 l5 s c2).tp =
      round3 (min (c2.open_ - 2 / 100) ((c2.close + s.high) / 2) -
        (s.high + 20 * (1 / 100) -
          min (c2.open_ - 2 / 100) ((c2.close + s.high) / 2)) * 4) := rfl
  have hb1 : (build_btc_short_plan l15b l5b s c2).entry =
      round2 (min (c2.open_ - 1) ((c2.close + s.high) / 2)) := rfl
  have hb2 : (build_btc_short_plan l15b l5b s c2).sl =
      round2 (s.high + 350) := rfl
  have hb3 : (build_btc_short_plan l15b l5b s c2).tp =
      round2 (min (c2.open_ - 1) ((c2.close + s.high) / 2) -
        (s.high + 350 -
          min (c2.open_ - 1) ((c2.close + s.high) / 2)) * 4) := rfl
  have hEx : min (c2.open_ - 2 / 100) ((c2.close + s.high) / 2) < s.high := by
    apply lt_of_le_of_lt (min_le_right _ _)
    linarith
  have hEb : min (c2.open_ - 1) ((c2.close + s.high) / 2) < s.high := by
    apply lt_of_le_of_lt (min_le_right _ _)
    linarith
  refine ⟨⟨?_, ?_⟩, ⟨?_, ?_⟩⟩
  · rw [hx3, hx1]
    apply round3_lt_round3
    linarith
  · rw [hx1, hx2]
    apply round3_lt_round3
    linarith
  · rw [hb3, hb1]
    apply round2_lt_round2
    linarith
  · rw [hb1, hb2]
    apply round2_lt_round2
    linarith

/-- C1 witness: the plan invariant on a concrete detected sweep. -/
theorem short_plan_invariant_witness :
    ((build_xau_short_plan flatC flatC w1c w2c).tp <
        (build_xau_short_plan flatC flatC w1c w2c).entry ∧
      (build_xau_short_plan flatC flatC w1c w2c).entry <
        (build_xau_short_plan flatC flatC w1c w2c).sl) ∧
    ((build_btc_short_plan flatC flatC w1c w2c).tp <
        (build_btc_short_plan flatC flatC w1c w2c).entry ∧
      (build_btc_short_plan flatC flatC w1c w2c).entry <
        (build_btc_short_plan flatC flatC w1c w2c).sl) :=
  short_plan_invariant cs8 6 flatC flatC flatC flatC (by decide) w1c w2c 5
    detect_cs8_eq
